import Mathlib

/-!
bigcache buffers: heap-backed and mmap-backed growable byte regions.

A shallow embedding of `buffer/byteslice.go`, `buffer/mmap.go` and `mmap/mmap.go`.

Conventions of the embedding

* Go `int` / `int64` values are `Int`; addresses (`uintptr`) are `Nat`; the `uint64`
  sequence counter is a `Nat` that wraps modulo `2 ^ 64`.
* A Go `error` is `Option Errno`, `none` being `nil`.
* A run-time panic is the `Except.error` branch of `Except Panic _`.
* The operating system is explicit state (`OS`): the length of every file, the
  bytes visible at every virtual address and the log of system calls issued so far.
  Whether a system call succeeds is not decided by the program; it is read from an
  `Outcomes` record passed to every operation that enters the kernel.
* Heap slices produced by `make` are modelled by their contents (`List Byte`);
  `make` panics outside the range `0 .. maxAlloc` of the runtime, and the process
  running out of memory within that range is not modelled.
  Slices over mapped memory are modelled by their header (`Slice`) and read
  through the memory of the `OS`.
* Go strings are Lean strings. The one byte-level operation of the code,
  `path[len(path)-1] != '/'`, compares the last byte with an ASCII character,
  which in UTF-8 text is the last character.
* The arithmetic of the code on `int` values (`int64(size)-fileSize`, taken only
  when `size > fileSize`) cannot overflow for file lengths `≥ 0`; theorems that
  depend on `uintptr(size)` keeping the value assume `size < 2 ^ 63`, the range of
  a Go `int`.
-/

namespace BigCache

/-- One byte of memory. -/
abbrev Byte := Nat

/-- An operating-system error value (`syscall.Errno`, `*os.PathError`, ...). -/
abbrev Errno := Nat

/-- Run-time panics the modelled code can raise. -/
inductive Panic where
  | indexOutOfRange
  | sliceBoundsOutOfRange
  | makesliceLenOutOfRange
deriving DecidableEq, Repr

/-! Source file `buffer/byteslice.go` -/

/-- The limit `maxAlloc` of the Go runtime on 64-bit Linux, the platform of the
`fallocate` and `mremap` calls of this package: the largest number of bytes one
allocation may have. -/
def maxAllocLinux64 : Int := 2 ^ 48

/-- Go `make([]byte, n)`: a fresh zero-initialised slice of length `n`. The runtime
panics with `makeslice: len out of range` when `n` is negative or exceeds its limit
`maxAlloc`, which the model takes as a parameter. -/
def makeBytes (maxAlloc : Int) (n : Int) : Except Panic (List Byte) :=
  if n < 0 ∨ maxAlloc < n then .error .makesliceLenOutOfRange
  else .ok (List.replicate n.toNat 0)

/-- The heap-backed buffer: `type ByteSliceBuffer struct { data []byte }`. -/
structure ByteSliceBuffer where
  data : List Byte
deriving DecidableEq, Repr

/-- Model of `func (b *ByteSliceBuffer) Bytes() (bytes []byte)`. -/
def ByteSliceBuffer.Bytes (b : ByteSliceBuffer) : List Byte :=
  b.data

/-- Model of `func (b *ByteSliceBuffer) Enlarge(nextSize int)`, on a runtime with
allocation limit `maxAlloc`.
Returns `((nextBuffer, oldBuffer, err), b)` with `b` the receiver after the call. -/
def ByteSliceBuffer.Enlarge (maxAlloc : Int) (b : ByteSliceBuffer) (nextSize : Int) :
    Except Panic ((List Byte × List Byte × Option Errno) × ByteSliceBuffer) :=
  let oldBuffer := b.data
  match makeBytes maxAlloc nextSize with
  | .error p => .error p
  | .ok fresh =>
    let b : ByteSliceBuffer := { b with data := fresh }
    .ok ((b.data, oldBuffer, none), b)

/-- Model of `func (b *ByteSliceBuffer) Close() (err error)`. -/
def ByteSliceBuffer.Close (b : ByteSliceBuffer) : Option Errno × ByteSliceBuffer :=
  (none, { b with data := [] })

/-- Model of `func (self ByteSliceBufferCreator) NewBuffer(initialSize int)`, on a
runtime with allocation limit `maxAlloc`. -/
def ByteSliceBufferCreator.NewBuffer (maxAlloc : Int) (initialSize : Int) :
    Except Panic (ByteSliceBuffer × Option Errno) :=
  match makeBytes maxAlloc initialSize with
  | .error p => .error p
  | .ok fresh => .ok ({ data := fresh }, none)

/-! The operating system -/

/-- System calls (and `os` package calls) the code issues, with their arguments. -/
inductive Syscall where
  | openFile (name : String)
  | stat (name : String)
  | fallocate (name : String) (mode off len : Int)
  | mmap (name : String) (off len : Int)
  | mremap (addr len lenNew : Nat)
  | munmap (addr : Nat) (len : Int)
  | closeFile (name : String)
deriving DecidableEq, Repr

/-- The state of the operating system as far as the code can observe it. -/
structure OS where
  /-- Length of each existing file, `none` when there is no such file. -/
  files : String → Option Int
  /-- The byte visible at each virtual address. -/
  mem : Nat → Byte
  /-- System calls issued so far, oldest first. -/
  log : List Syscall

/-- What the kernel answers to each kind of call an operation makes. Every
operation modelled here makes each kind of call at most once. -/
structure Outcomes where
  openErr : Option Errno
  statErr : Option Errno
  fallocateErr : Option Errno
  /-- The address of the new mapping, or the error. -/
  mmapRes : Except Errno Nat
  /-- The address of the resized mapping, or the error. -/
  mremapRes : Except Errno Nat
  munmapErr : Option Errno
  closeErr : Option Errno

/-- A slice header (`reflect.SliceHeader`); the nil slice has `Data = 0`. -/
structure Slice where
  Data : Nat
  Len : Int
  Cap : Int
deriving DecidableEq, Repr

/-- The nil slice. -/
def Slice.nil : Slice := ⟨0, 0, 0⟩

/-- Go `s == nil`. -/
def Slice.isNil (s : Slice) : Bool := s.Data == 0

/-- Go `s[i]` read through the memory `mem`. -/
def Slice.index (s : Slice) (mem : Nat → Byte) (i : Int) : Except Panic Byte :=
  if 0 ≤ i ∧ i < s.Len then .ok (mem (s.Data + i.toNat)) else .error .indexOutOfRange

/-- Go `s[:n]`. -/
def Slice.upto (s : Slice) (n : Int) : Except Panic Slice :=
  if 0 ≤ n ∧ n ≤ s.Cap then .ok ⟨s.Data, n, s.Cap⟩ else .error .sliceBoundsOutOfRange

/-- Go conversion `uintptr(x)` of an `int` on a 64-bit platform. -/
def uintptr (x : Int) : Nat := (x % 2 ^ 64).toNat

/-- An open file (`*os.File`), identified by the name it was opened with. -/
structure File where
  name : String
deriving DecidableEq, Repr

/-- Append one entry to the system-call log. -/
def OS.record (os : OS) (c : Syscall) : OS :=
  { os with log := os.log ++ [c] }

/-- The calls issued between the state `os` and the later state `os2`. -/
def OS.issued (os os2 : OS) : List Syscall :=
  os2.log.drop os.log.length

/-! Source file `mmap/mmap.go` -/

/-- Model of `os.OpenFile(name, os.O_CREATE|os.O_RDWR, 0777)`: on success the file
exists afterwards, with length 0 when it had to be created. -/
def OpenFile (k : Outcomes) (os : OS) (name : String) : Except Errno File × OS :=
  let os := os.record (.openFile name)
  match k.openErr with
  | some e => (.error e, os)
  | none =>
    match os.files name with
    | some _ => (.ok ⟨name⟩, os)
    | none => (.ok ⟨name⟩, { os with files := fun n => if n = name then some 0 else os.files n })

/-- Model of `file.Stat()` followed by `stats.Size()`: the current length of the file. -/
def File.Stat (k : Outcomes) (os : OS) (file : File) : Int × Option Errno × OS :=
  let os := os.record (.stat file.name)
  match k.statErr with
  | some e => (0, some e, os)
  | none => ((os.files file.name).getD 0, none, os)

/-- Model of `syscall.Fallocate(fd, mode, off, len)` with `mode = 0`: on success the
file is at least `off + len` bytes long. -/
def Fallocate (k : Outcomes) (os : OS) (file : File) (mode off len : Int) : Option Errno × OS :=
  let os := os.record (.fallocate file.name mode off len)
  match k.fallocateErr with
  | some e => (some e, os)
  | none =>
    let size := (os.files file.name).getD 0
    (none, { os with files := fun n => if n = file.name then some (max size (off + len)) else os.files n })

/-- Model of `syscall.Mmap(fd, 0, length, prot, flags)`: on success a slice of
`length` bytes at the address chosen by the kernel. -/
def SyscallMmap (k : Outcomes) (os : OS) (file : File) (off length : Int) :
    Slice × Option Errno × OS :=
  let os := os.record (.mmap file.name off length)
  match k.mmapRes with
  | .error e => (Slice.nil, some e, os)
  | .ok addr => (⟨addr, length, length⟩, none, os)

/-- Model of `syscall.Munmap(b)`. -/
def SyscallMunmap (k : Outcomes) (os : OS) (b : Slice) : Option Errno × OS :=
  (k.munmapErr, os.record (.munmap b.Data b.Len))

/-- Model of `file.Close()`. -/
def File.Close (k : Outcomes) (os : OS) (file : File) : Option Errno × OS :=
  (k.closeErr, os.record (.closeFile file.name))

/-- The memory after the kernel moved a mapping of `len` bytes from `addr` to
`xaddr`: the first `len` bytes at `xaddr` are the bytes that were at `addr`. -/
def remapMem (mem : Nat → Byte) (addr xaddr len : Nat) : Nat → Byte :=
  fun a => if xaddr ≤ a ∧ a < xaddr + len then mem (addr + (a - xaddr)) else mem a

/-- Model of `func Mremap(addr, len, lenNew uintptr) (uintptr, error)`: the
`SYS_MREMAP` call with `MREMAP_MAYMOVE`; returns `(0, err)` or `(xaddr, nil)`. -/
def Mremap (k : Outcomes) (os : OS) (addr len lenNew : Nat) : Nat × Option Errno × OS :=
  let os := os.record (.mremap addr len lenNew)
  match k.mremapRes with
  | .error e => (0, some e, os)
  | .ok xaddr => (xaddr, none, { os with mem := remapMem os.mem addr xaddr len })

/-- The Go struct `MmapFile`. -/
structure MmapFile where
  file : File
  mapData : Slice
  mapSize : Int
  usedMapSize : Int
deriving DecidableEq, Repr

/-- Model of `func NewMmapFileOpen(name string, allocSize int) (mmf *MmapFile, err error)`. -/
def NewMmapFileOpen (k : Outcomes) (os : OS) (name : String) (allocSize : Int) :
    Option MmapFile × Option Errno × OS :=
  match OpenFile k os name with
  | (.error err, os) => (none, some err, os)
  | (.ok file, os) =>
    match file.Stat k os with
    | (_, some err, os) => (none, some err, os)
    | (size, none, os) =>
      match Fallocate k os file 0 size allocSize with
      | (some err, os) => (none, some err, os)
      | (none, os) =>
        match SyscallMmap k os file 0 allocSize with
        | (_, some err, os) => (none, some err, os)
        | (mapData, none, os) =>
          (some { file := file, mapData := mapData, mapSize := allocSize, usedMapSize := 0 },
            none, os)

/-- Model of `func (mmf *MmapFile) File() *os.File`. -/
def MmapFile.File (mmf : MmapFile) : File :=
  mmf.file

/-- Model of `func (mmf *MmapFile) MapData() []byte`. -/
def MmapFile.MapData (mmf : MmapFile) : Slice :=
  mmf.mapData

/-- Model of `func (mmf *MmapFile) Close() (err error)`. -/
def MmapFile.Close (k : Outcomes) (mmf : MmapFile) (os : OS) : Option Errno × OS :=
  if !mmf.mapData.isNil then
    match SyscallMunmap k os mmf.mapData with
    | (some err, os) => (some err, os)
    | (none, os) => mmf.file.Close k os
  else
    mmf.file.Close k os

/-- The three results of `EnsureFileSize`. -/
structure Ensured where
  buf : Slice
  isRemapped : Bool
  err : Option Errno
deriving DecidableEq, Repr

/-- Model of `func (mmf *MmapFile) EnsureFileSize(size int) (buf []byte, isRemapped bool, err error)`.
Returns the results together with the receiver and the operating system after the call.
`&mmf.mapData[0]` panics on an empty slice. -/
def MmapFile.EnsureFileSize (k : Outcomes) (mmf : MmapFile) (os : OS) (size : Int) :
    Except Panic (Ensured × MmapFile × OS) :=
  let file := mmf.File
  match file.Stat k os with
  | (_, some err, os) => .ok (⟨Slice.nil, false, some err⟩, mmf, os)
  | (fileSize, none, os) =>
    match (if size > fileSize then Fallocate k os file 0 fileSize (size - fileSize)
           else (none, os)) with
    | (some err, os) => .ok (⟨Slice.nil, false, some err⟩, mmf, os)
    | (none, os) =>
      if size > mmf.mapSize then
        if mmf.mapData.Len ≤ 0 then .error .indexOutOfRange
        else
          let addr := mmf.mapData.Data
          match Mremap k os addr (uintptr mmf.mapSize) (uintptr size) with
          | (_, some err, os) => .ok (⟨Slice.nil, false, some err⟩, mmf, os)
          | (addrNew, none, os) =>
            let mmf : MmapFile := { mmf with mapData := ⟨addrNew, size, size⟩, mapSize := size }
            .ok (⟨mmf.mapData, true, none⟩, mmf, os)
      else
        .ok (⟨mmf.mapData, false, none⟩, mmf, os)

/-! Source file `buffer/mmap.go` -/

/-- The Go struct `MmapFileBuffer`. -/
structure MmapFileBuffer where
  mmf : MmapFile
deriving DecidableEq, Repr

/-- Model of `func NewMmapFileBuffer(mmf *mmap.MmapFile) (b *MmapFileBuffer)`. -/
def NewMmapFileBuffer (mmf : MmapFile) : MmapFileBuffer :=
  { mmf := mmf }

/-- Model of `func NewMmapFileBufferOpen(name string, allocSize int)`. -/
def NewMmapFileBufferOpen (k : Outcomes) (os : OS) (name : String) (allocSize : Int) :
    Option MmapFileBuffer × Option Errno × OS :=
  match NewMmapFileOpen k os name allocSize with
  | (_, some err, os) => (none, some err, os)
  | (some mmf, none, os) => (some (NewMmapFileBuffer mmf), none, os)
  | (none, none, os) => (none, none, os)

/-- Model of `func (b *MmapFileBuffer) Bytes() (bytes []byte)`. -/
def MmapFileBuffer.Bytes (b : MmapFileBuffer) : Slice :=
  b.mmf.MapData

/-- Model of `func (b *MmapFileBuffer) Enlarge(nextSize int) (nextBuffer, oldBuffer []byte, err error)`.
Returns `(nextBuffer, oldBuffer, err)` with the receiver and the operating system
after the call. -/
def MmapFileBuffer.Enlarge (k : Outcomes) (b : MmapFileBuffer) (os : OS) (nextSize : Int) :
    Except Panic ((Slice × Slice × Option Errno) × MmapFileBuffer × OS) :=
  let oldBuffer := b.Bytes
  match b.mmf.EnsureFileSize k os nextSize with
  | .error p => .error p
  | .ok (r, mmf, os) =>
    if r.isRemapped then
      match r.buf.upto oldBuffer.Len with
      | .error p => .error p
      | .ok oldBuffer => .ok ((r.buf, oldBuffer, r.err), { b with mmf := mmf }, os)
    else
      .ok ((r.buf, oldBuffer, r.err), { b with mmf := mmf }, os)

/-- Model of `func (b *MmapFileBuffer) Close() (err error)`. -/
def MmapFileBuffer.Close (k : Outcomes) (b : MmapFileBuffer) (os : OS) : Option Errno × OS :=
  b.mmf.Close k os

/-- The Go struct `SeqentialMmapFileBufferCreator` without its lock: calls are
taken one after the other, in the order the lock admits them. -/
structure SeqentialMmapFileBufferCreator where
  path : String
  seq : Nat
deriving DecidableEq, Repr

/-- Go `strconv.FormatUint(i, 10)`: the decimal digits of `i`. -/
def FormatUint (i : Nat) : String :=
  Nat.repr i

/-- Model of `func NewSeqentialMmapFileBufferCreator(path string)`.
`path[len(path)-1]` panics on the empty string. -/
def NewSeqentialMmapFileBufferCreator (path : String) :
    Except Panic SeqentialMmapFileBufferCreator :=
  match path.data.getLast? with
  | none => .error .indexOutOfRange
  | some last =>
    let path := if last ≠ '/' then path ++ "/" else path
    .ok { path := path, seq := 1 }

/-- Model of `func (c *SeqentialMmapFileBufferCreator) NewBuffer(initialSize int)`.
Returns `(buffer, err)` with the receiver and the operating system after the call;
`c.seq++` wraps at `2 ^ 64`. -/
def SeqentialMmapFileBufferCreator.NewBuffer (k : Outcomes)
    (c : SeqentialMmapFileBufferCreator) (os : OS) (initialSize : Int) :
    (Option MmapFileBuffer × Option Errno) × SeqentialMmapFileBufferCreator × OS :=
  match NewMmapFileBufferOpen k os (c.path ++ FormatUint c.seq) initialSize with
  | (_, some err, os) => ((none, some err), c, os)
  | (b, none, os) => ((b, none), { c with seq := (c.seq + 1) % 2 ^ 64 }, os)

/-- The file names passed to the open step by the calls in a log. -/
def openedNames : List Syscall → List String
  | [] => []
  | .openFile name :: rest => name :: openedNames rest
  | _ :: rest => openedNames rest

/-- What one `NewBuffer` call of a run did. -/
structure Call where
  /-- The counter value the call found. -/
  seq : Nat
  /-- The file names the call passed to the open step. -/
  opened : List String
  /-- The returned buffer. -/
  buffer : Option MmapFileBuffer
  /-- The returned error. -/
  err : Option Errno
  /-- The counter value the call left. -/
  seqAfter : Nat
deriving DecidableEq, Repr

/-- A run of `NewBuffer` calls on one factory, one `(outcomes, initialSize)` pair
per call, in the order the lock serialises them. -/
def runNewBuffer (c : SeqentialMmapFileBufferCreator) (os : OS) :
    List (Outcomes × Int) → List Call
  | [] => []
  | (k, initialSize) :: rest =>
    match c.NewBuffer k os initialSize with
    | ((buffer, err), c2, os2) =>
      { seq := c.seq, opened := openedNames (os.issued os2), buffer := buffer, err := err,
        seqAfter := c2.seq } :: runNewBuffer c2 os2 rest

/-- The number a list of decimal digit characters denotes; it reads back what
`FormatUint` writes. -/
def decimalValue (digits : List Char) : Nat :=
  digits.foldl (fun acc ch => 10 * acc + (ch.toNat - 48)) 0

/-! Sample states used to exercise the model -/

/-- Outcomes in which every call succeeds; a new mapping is placed at address
4096 and a resized mapping is moved to address 8192. -/
def allSucceed : Outcomes :=
  { openErr := none, statErr := none, fallocateErr := none, mmapRes := .ok 4096,
    mremapRes := .ok 8192, munmapErr := none, closeErr := none }

/-- An operating system holding one file `f` of `size` bytes, whose first mapped
byte, at address 4096, is `0x42`. -/
def oneFile (size : Int) : OS :=
  { files := fun n => if n = "f" then some size else none,
    mem := fun a => if a = 4096 then 66 else 0,
    log := [] }

/-- A buffer over the first four bytes of `f`, mapped at address 4096. -/
def fourBytes : MmapFileBuffer :=
  { mmf := { file := ⟨"f"⟩, mapData := ⟨4096, 4, 4⟩, mapSize := 4, usedMapSize := 0 } }

end BigCache

namespace BigCache

/-! Heap-backed growth -/

/-- C2, as amended: for a heap-backed buffer holding `d` and a `nextSize` from 0 up
to the allocation limit `maxAlloc` of the runtime, `Enlarge nextSize` returns a nil
error, a `nextBuffer` of exactly `nextSize` zero bytes and `d` itself as
`oldBuffer`; `Bytes` afterwards is `nextBuffer`. -/
theorem byteSlice_enlarge_allocates_fresh (maxAlloc : Int) (b : ByteSliceBuffer)
    (nextSize : Int) (h : 0 ≤ nextSize) (hmax : nextSize ≤ maxAlloc) :
    ∃ nextBuffer oldBuffer b2,
      b.Enlarge maxAlloc nextSize = .ok ((nextBuffer, oldBuffer, none), b2) ∧
      (nextBuffer.length : Int) = nextSize ∧ (∀ x ∈ nextBuffer, x = 0) ∧
      oldBuffer = b.Bytes ∧ b2.Bytes = nextBuffer := by
  refine ⟨List.replicate nextSize.toNat 0, b.data, ⟨List.replicate nextSize.toNat 0⟩, ?_, ?_, ?_,
    rfl, rfl⟩
  · have hn : ¬ (nextSize < 0 ∨ maxAlloc < nextSize) := by omega
    simp [ByteSliceBuffer.Enlarge, makeBytes, hn]
  · simp [Int.toNat_of_nonneg h]
  · intro x hx
    exact (List.mem_replicate.mp hx).2

/-- C2 as stated fails: on 64-bit Linux, `Enlarge` with the non-negative `int`
`1 << 50` panics with `makeslice: len out of range` instead of returning. -/
theorem byteSlice_enlarge_allocates_fresh_counterexample :
    (0 : Int) ≤ 2 ^ 50 ∧ (2 : Int) ^ 50 < 2 ^ 63 ∧
    (ByteSliceBuffer.mk (255 :: List.replicate 15 0)).Enlarge maxAllocLinux64 (2 ^ 50)
      = .error .makesliceLenOutOfRange :=
  ⟨by decide, by decide, rfl⟩

/-- C2, as amended, at a 16-byte buffer starting with `0xFF`, grown to 32 bytes on
64-bit Linux. -/
theorem byteSlice_enlarge_allocates_fresh_witness :
    (0 : Int) ≤ 32 ∧ (32 : Int) ≤ maxAllocLinux64 ∧ ∃ nextBuffer oldBuffer b2,
      (ByteSliceBuffer.mk (255 :: List.replicate 15 0)).Enlarge maxAllocLinux64 32
        = .ok ((nextBuffer, oldBuffer, none), b2) ∧
      (nextBuffer.length : Int) = 32 ∧ (∀ x ∈ nextBuffer, x = 0) ∧
      oldBuffer = (ByteSliceBuffer.mk (255 :: List.replicate 15 0)).Bytes ∧
      b2.Bytes = nextBuffer :=
  ⟨by decide, by decide,
    byteSlice_enlarge_allocates_fresh maxAllocLinux64 _ 32 (by decide) (by decide)⟩

/-! Growth of a mapped file -/

/-- When the mapping is too small a successful `EnsureFileSize` has moved it: the
span is non-empty, the kernel returned an address `xaddr`, the new span is `size`
bytes at `xaddr`, the memory is the remapped memory and the remap is the last call
issued, after the stat and the pre-allocation of the shortfall. -/
theorem ensure_ok_grow (k : Outcomes) (mmf : MmapFile) (os : OS) (size : Int)
    (r : Ensured) (mmf2 : MmapFile) (os2 : OS)
    (h : mmf.EnsureFileSize k os size = .ok (r, mmf2, os2)) (herr : r.err = none)
    (hgt : mmf.mapSize < size) :
    ∃ xaddr, 0 < mmf.mapData.Len ∧ r = ⟨⟨xaddr, size, size⟩, true, none⟩ ∧
      mmf2 = { mmf with mapData := ⟨xaddr, size, size⟩, mapSize := size } ∧
      os2.mem = remapMem os.mem mmf.mapData.Data xaddr (uintptr mmf.mapSize) ∧
      ∃ pre, os2.log = os.log ++ pre ++
          [Syscall.mremap mmf.mapData.Data (uintptr mmf.mapSize) (uintptr size)] ∧
        ∀ a l n, Syscall.mremap a l n ∉ pre := by
  unfold MmapFile.EnsureFileSize at h
  simp only [File.Stat, Fallocate, Mremap, OS.record] at h
  cases hs : k.statErr <;> cases hf : k.fallocateErr <;> cases hm : k.mremapRes <;>
    simp only [hs, hf, hm] at h <;> (try split_ifs at h) <;>
    simp at h <;> (try obtain ⟨rfl, rfl, rfl⟩ := h) <;> (try simp at herr)
  all_goals
    rename_i xaddr _ hlen
    refine ⟨xaddr, by omega, rfl, rfl, rfl, ?_⟩
  all_goals first
    | (refine ⟨[Syscall.stat mmf.File.name], ?_, ?_⟩
       · simp
       · simp)
    | (refine ⟨[Syscall.stat mmf.File.name, Syscall.fallocate mmf.File.name 0
          ((os.files mmf.File.name).getD 0) (size - (os.files mmf.File.name).getD 0)], ?_, ?_⟩
       · simp
       · simp)

/-- When the mapping is already large enough a successful `EnsureFileSize` leaves
the mapping alone. -/
theorem ensure_ok_keep (k : Outcomes) (mmf : MmapFile) (os : OS) (size : Int)
    (r : Ensured) (mmf2 : MmapFile) (os2 : OS)
    (h : mmf.EnsureFileSize k os size = .ok (r, mmf2, os2)) (herr : r.err = none)
    (hle : size ≤ mmf.mapSize) :
    r = ⟨mmf.mapData, false, none⟩ ∧ mmf2 = mmf ∧ os2.mem = os.mem ∧
      ∃ pre, os2.log = os.log ++ pre ∧ ∀ a l n, Syscall.mremap a l n ∉ pre := by
  unfold MmapFile.EnsureFileSize at h
  simp only [File.Stat, Fallocate, Mremap, OS.record] at h
  cases hs : k.statErr <;> cases hf : k.fallocateErr <;> cases hm : k.mremapRes <;>
    simp only [hs, hf, hm] at h <;> (try split_ifs at h) <;>
    simp at h <;> (try obtain ⟨rfl, rfl, rfl⟩ := h) <;> (try simp at herr) <;>
    (try omega)
  all_goals refine ⟨rfl, rfl, rfl, ?_⟩
  all_goals first
    | (refine ⟨[Syscall.stat mmf.File.name], ?_, ?_⟩
       · simp
       · simp)
    | (refine ⟨[Syscall.stat mmf.File.name, Syscall.fallocate mmf.File.name 0
          ((os.files mmf.File.name).getD 0) (size - (os.files mmf.File.name).getD 0)], ?_, ?_⟩
       · simp
       · simp)


/-- C5: when `EnsureFileSize` returns an error, the mapped span, `mapSize` and the
memory are what they were and `isRemapped` is false; `Enlarge` then returns the
error with the span held before the call as `oldBuffer`, and `Bytes` afterwards is
that same span with the same content. -/
theorem failed_growth_is_atomic (k : Outcomes) (b : MmapFileBuffer) (os : OS) (size : Int)
    (r : Ensured) (mmf2 : MmapFile) (os2 : OS)
    (h : b.mmf.EnsureFileSize k os size = .ok (r, mmf2, os2)) (herr : r.err ≠ none) :
    mmf2.mapData = b.mmf.mapData ∧ mmf2.mapSize = b.mmf.mapSize ∧ r.isRemapped = false ∧
      os2.mem = os.mem ∧
      b.Enlarge k os size = .ok ((r.buf, b.Bytes, r.err), { b with mmf := mmf2 }, os2) ∧
      ({ b with mmf := mmf2 } : MmapFileBuffer).Bytes = b.Bytes ∧
      ∀ i, ({ b with mmf := mmf2 } : MmapFileBuffer).Bytes.index os2.mem i
        = b.Bytes.index os.mem i := by
  have key : mmf2 = b.mmf ∧ r.isRemapped = false ∧ os2.mem = os.mem := by
    unfold MmapFile.EnsureFileSize at h
    simp only [File.Stat, Fallocate, Mremap, OS.record] at h
    cases hs : k.statErr <;> cases hf : k.fallocateErr <;> cases hm : k.mremapRes <;>
      simp only [hs, hf, hm] at h <;> (try split_ifs at h) <;>
      simp at h <;> (try obtain ⟨rfl, rfl, rfl⟩ := h) <;> simp_all
  obtain ⟨rfl, hr, hmem⟩ := key
  refine ⟨rfl, rfl, hr, hmem, ?_, rfl, ?_⟩
  · simp [MmapFileBuffer.Enlarge, h, hr]
  · intro i
    simp [MmapFileBuffer.Bytes, hmem]

/-- Within the range of a Go `int` the conversion to `uintptr` keeps the value. -/
theorem uintptr_of_nonneg (x : Int) (h0 : 0 ≤ x) (h1 : x < 2 ^ 63) : uintptr x = x.toNat := by
  unfold uintptr
  rw [Int.emod_eq_of_lt h0 (by omega)]

/-- The calls issued between a state and one whose log extends it. -/
theorem issued_of_log_eq (os os2 : OS) (l : List Syscall) (h : os2.log = os.log ++ l) :
    os.issued os2 = l := by
  simp [OS.issued, h]

/-- Reading the moved mapping at an offset below the old length gives the byte that
was at that offset of the old mapping. -/
theorem remapMem_read (mem : Nat → Byte) (addr xaddr len i : Nat) (h : i < len) :
    remapMem mem addr xaddr len (xaddr + i) = mem (addr + i) := by
  have h1 : xaddr ≤ xaddr + i ∧ xaddr + i < xaddr + len := ⟨by omega, by omega⟩
  simp [remapMem, h1]

/-- C3: from a state with `mapSize = len(mapData) = L`, a call `EnsureFileSize size`
with `size > 0` (an `int`, so below `2 ^ 63`) that returns no error has, when `size > L`, issued exactly one remap,
from `L` to `size`, as its last call, returns a span of length exactly `size` with
`mapSize = size` and `isRemapped = true`; when `size ≤ L` it has issued no remap,
left `mapData` and `mapSize` alone and returns the current span with
`isRemapped = false`. Either way the returned span is the new `mapData`, has length
`max L size ≥ size`, and `mapSize = len(mapData)` still holds. -/
theorem ensureFileSize_success_span (k : Outcomes) (mmf : MmapFile) (os : OS) (size L : Int)
    (r : Ensured) (mmf2 : MmapFile) (os2 : OS)
    (hmap : mmf.mapSize = L) (hlen : mmf.mapData.Len = L) (hpos : 0 < size)
    (hint : size < 2 ^ 63)
    (h : mmf.EnsureFileSize k os size = .ok (r, mmf2, os2)) (herr : r.err = none) :
    (L < size →
      (∃ pre, os.issued os2 = pre ++ [Syscall.mremap mmf.mapData.Data L.toNat size.toNat] ∧
        ∀ a l n, Syscall.mremap a l n ∉ pre) ∧
      r.buf.Len = size ∧ mmf2.mapData.Len = size ∧ mmf2.mapSize = size ∧
      r.isRemapped = true) ∧
    (size ≤ L →
      (∀ a l n, Syscall.mremap a l n ∉ os.issued os2) ∧ mmf2.mapData = mmf.mapData ∧
      mmf2.mapSize = mmf.mapSize ∧ r.buf = mmf.mapData ∧ r.isRemapped = false) ∧
    r.buf = mmf2.mapData ∧ r.buf.Len = max L size ∧ size ≤ r.buf.Len ∧
    mmf2.mapSize = mmf2.mapData.Len := by
  rcases lt_or_le L size with hlt | hle
  · obtain ⟨xaddr, hpos2, rfl, rfl, -, pre, hlog, hpre⟩ :=
      ensure_ok_grow k mmf os size r mmf2 os2 h herr (hmap ▸ hlt)
    have hL0 : 0 ≤ L := by omega
    refine ⟨fun _ => ⟨⟨pre, ?_, hpre⟩, rfl, rfl, rfl, rfl⟩, fun hc => absurd hc (not_le.mpr hlt),
      rfl, ?_, le_refl _, rfl⟩
    · rw [issued_of_log_eq os os2 _ (by rw [hlog, List.append_assoc]), hmap,
        uintptr_of_nonneg L hL0 (by omega), uintptr_of_nonneg size (by omega) hint]
    · exact (max_eq_right hlt.le).symm
  · obtain ⟨rfl, rfl, -, pre, hlog, hpre⟩ :=
      ensure_ok_keep k mmf os size r mmf2 os2 h herr (hmap ▸ hle)
    refine ⟨fun hc => absurd hc (not_lt.mpr hle), fun _ => ⟨?_, rfl, rfl, rfl, rfl⟩, rfl, ?_, ?_,
      by rw [hmap, hlen]⟩
    · rw [issued_of_log_eq os os2 pre hlog]
      exact hpre
    · show mmf2.mapData.Len = max L size
      rw [hlen, max_eq_left hle]
    · show size ≤ mmf2.mapData.Len
      rw [hlen]
      exact hle

/-- C1: for a mapped buffer with `mapSize = len(Bytes()) = L`, a byte `bt` at offset
`o` of the span and `n > L` (an `int`, so below `2 ^ 63`): when `Enlarge n` returns
no error, `nextBuffer[o]` is
`bt`, the returned `oldBuffer` is `nextBuffer[:L]`, and `oldBuffer` and `nextBuffer`
agree at every offset below `L`, wherever the kernel placed the mapping. -/
theorem mmap_enlarge_preserves_content (k : Outcomes) (b : MmapFileBuffer) (os : OS)
    (n L o : Int) (bt : Byte) (next old : Slice) (b2 : MmapFileBuffer) (os2 : OS)
    (hmap : b.mmf.mapSize = L) (hlen : b.Bytes.Len = L)
    (hb : b.Bytes.index os.mem o = .ok bt) (hn : L < n) (hint : n < 2 ^ 63)
    (h : b.Enlarge k os n = .ok ((next, old, none), b2, os2)) :
    next.index os2.mem o = .ok bt ∧ next.upto L = .ok old ∧ old.index os2.mem o = .ok bt ∧
      (∀ i, 0 ≤ i → i < L → old.index os2.mem i = next.index os2.mem i) ∧
      b2.Bytes = next := by
  have ho : 0 ≤ o ∧ o < L := by
    unfold Slice.index at hb
    split_ifs at hb with hc
    · exact hlen ▸ hc
  have hbt : os.mem (b.mmf.mapData.Data + o.toNat) = bt := by
    unfold Slice.index at hb
    split_ifs at hb with hc
    simpa [MmapFileBuffer.Bytes, MmapFile.MapData] using hb
  unfold MmapFileBuffer.Enlarge at h
  cases he : b.mmf.EnsureFileSize k os n with
  | error p => simp [he] at h
  | ok res =>
    obtain ⟨r, mmf2, os3⟩ := res
    simp only [he] at h
    have herr : r.err = none := by
      split_ifs at h
      · split at h <;> simp at h
        exact h.1.2.2
      · simp at h
        exact h.1.2.2
    obtain ⟨xaddr, -, rfl, rfl, hmem, -⟩ :=
      ensure_ok_grow k b.mmf os n r mmf2 os3 he herr (hmap ▸ hn)
    have hup : (⟨xaddr, n, n⟩ : Slice).upto (b.Bytes.Len) = .ok ⟨xaddr, L, n⟩ := by
      have : 0 ≤ L ∧ L ≤ n := ⟨by omega, by omega⟩
      simp [Slice.upto, hlen, this]
    simp [hup] at h
    obtain ⟨⟨rfl, rfl⟩, rfl, rfl⟩ := h
    have hread : ∀ i : Int, 0 ≤ i → i < L →
        os3.mem (xaddr + i.toNat) = os.mem (b.mmf.mapData.Data + i.toNat) := by
      intro i hi0 hiL
      rw [hmem, hmap, uintptr_of_nonneg L (by omega) (by omega)]
      exact remapMem_read _ _ _ _ _ (by omega)
    refine ⟨?_, ?_, ?_, ?_, rfl⟩
    · have : 0 ≤ o ∧ o < n := ⟨ho.1, by omega⟩
      simp [Slice.index, this, hread o ho.1 ho.2, hbt]
    · have : 0 ≤ L ∧ L ≤ n := ⟨by omega, by omega⟩
      simp [Slice.upto, this]
    · simp [Slice.index, ho, hread o ho.1 ho.2, hbt]
    · intro i hi0 hiL
      have h1 : 0 ≤ i ∧ i < n := ⟨hi0, by omega⟩
      have h2 : 0 ≤ i ∧ i < L := ⟨hi0, hiL⟩
      simp [Slice.index, h1, h2]

/-- C1 at a four-byte mapping holding `0x42` at offset 0, grown to eight bytes and
moved by the kernel from address 4096 to address 8192. -/
theorem mmap_enlarge_preserves_content_witness :
    ∃ next old b2 os2,
      fourBytes.Enlarge allSucceed (oneFile 4) 8 = .ok ((next, old, none), b2, os2) ∧
      next.Data = 8192 ∧ next.index os2.mem 0 = .ok 66 ∧ next.upto 4 = .ok old ∧
      old.index os2.mem 0 = .ok 66 ∧
      (∀ i, 0 ≤ i → i < 4 → old.index os2.mem i = next.index os2.mem i) ∧
      b2.Bytes = next :=
  ⟨_, _, _, _, rfl, rfl,
    mmap_enlarge_preserves_content allSucceed fourBytes (oneFile 4) 8 4 0 66 _ _ _ _
      rfl rfl rfl (by decide) (by decide) rfl⟩

/-- C3 at a four-byte mapping asked for eight bytes, every call succeeding. -/
theorem ensureFileSize_success_span_witness :
    ∃ r mmf2 os2,
      fourBytes.mmf.EnsureFileSize allSucceed (oneFile 4) 8 = .ok (r, mmf2, os2) ∧
      r.buf = ⟨8192, 8, 8⟩ ∧
      ((4 : Int) < 8 →
        (∃ pre, (oneFile 4).issued os2 = pre ++ [Syscall.mremap 4096 4 8] ∧
          ∀ a l n, Syscall.mremap a l n ∉ pre) ∧
        r.buf.Len = 8 ∧ mmf2.mapData.Len = 8 ∧ mmf2.mapSize = 8 ∧ r.isRemapped = true) ∧
      r.buf = mmf2.mapData ∧ r.buf.Len = max 4 8 ∧ mmf2.mapSize = mmf2.mapData.Len :=
  ⟨_, _, _, rfl, rfl,
    (ensureFileSize_success_span allSucceed fourBytes.mmf (oneFile 4) 8 4 _ _ _
      rfl rfl (by decide) (by decide) rfl rfl).1,
    (ensureFileSize_success_span allSucceed fourBytes.mmf (oneFile 4) 8 4 _ _ _
      rfl rfl (by decide) (by decide) rfl rfl).2.2.1,
    (ensureFileSize_success_span allSucceed fourBytes.mmf (oneFile 4) 8 4 _ _ _
      rfl rfl (by decide) (by decide) rfl rfl).2.2.2.1,
    (ensureFileSize_success_span allSucceed fourBytes.mmf (oneFile 4) 8 4 _ _ _
      rfl rfl (by decide) (by decide) rfl rfl).2.2.2.2.2⟩

/-- C5 at a four-byte mapping asked for eight bytes when the pre-allocation fails
with error 28. -/
theorem failed_growth_is_atomic_witness :
    ∃ r mmf2 os2,
      fourBytes.mmf.EnsureFileSize { allSucceed with fallocateErr := some 28 } (oneFile 4) 8
        = .ok (r, mmf2, os2) ∧
      r.err = some 28 ∧ mmf2.mapData = ⟨4096, 4, 4⟩ ∧ mmf2.mapSize = 4 ∧
      r.isRemapped = false ∧ os2.mem = (oneFile 4).mem ∧
      fourBytes.Enlarge { allSucceed with fallocateErr := some 28 } (oneFile 4) 8
        = .ok ((r.buf, fourBytes.Bytes, r.err), { fourBytes with mmf := mmf2 }, os2) ∧
      ({ fourBytes with mmf := mmf2 } : MmapFileBuffer).Bytes = fourBytes.Bytes ∧
      ∀ i, ({ fourBytes with mmf := mmf2 } : MmapFileBuffer).Bytes.index os2.mem i
        = fourBytes.Bytes.index (oneFile 4).mem i :=
  ⟨_, _, _, rfl, rfl,
    failed_growth_is_atomic { allSucceed with fallocateErr := some 28 } fourBytes (oneFile 4) 8
      _ _ _ rfl (by decide)⟩

/-! Growth below the current size -/

/-- C4, as amended: for `0 < n ≤ L`, with `L` within the allocation limit of the
runtime, the heap-backed `Enlarge n` returns a nil error and a `nextBuffer` of
exactly `n` bytes, and `Bytes` afterwards is that buffer, of length `n ≤ L`;
the mapped `Enlarge n`, from `mapSize = len(Bytes()) = L`, never panics and returns
as its error the error of the stat when the stat fails, the outcome of the
pre-allocation when the stat succeeds and the file is shorter than `n`, and nil
otherwise; with a nil error `nextBuffer` is the current span of length `L ≥ n`, with
an error it is nil; `Bytes` afterwards is the span held before the call. -/
theorem growth_below_current_size (maxAlloc : Int) (b : ByteSliceBuffer) (k : Outcomes)
    (m : MmapFileBuffer) (os : OS) (n L : Int) (hn : 0 < n) (hb : n ≤ b.Bytes.length)
    (hmax : (b.Bytes.length : Int) ≤ maxAlloc)
    (hmap : m.mmf.mapSize = L) (hlen : m.Bytes.Len = L) (hnL : n ≤ L) :
    (∃ next b2, b.Enlarge maxAlloc n = .ok ((next, b.Bytes, none), b2) ∧
      (next.length : Int) = n ∧ b2.Bytes = next ∧ b2.Bytes.length ≤ b.Bytes.length) ∧
    (∃ next err m2 os2, m.Enlarge k os n = .ok ((next, m.Bytes, err), m2, os2) ∧
      m2.Bytes = m.Bytes ∧
      (∀ e, k.statErr = some e → err = some e) ∧
      (k.statErr = none → (os.files m.mmf.file.name).getD 0 < n → err = k.fallocateErr) ∧
      (k.statErr = none → ¬ (os.files m.mmf.file.name).getD 0 < n → err = none) ∧
      (err = none → next = m.Bytes ∧ n ≤ next.Len) ∧
      (err ≠ none → next = Slice.nil) ∧
      (err = none ↔ k.statErr = none ∧
        ((os.files m.mmf.file.name).getD 0 < n → k.fallocateErr = none))) := by
  constructor
  · refine ⟨List.replicate n.toNat 0, ⟨List.replicate n.toNat 0⟩, ?_, ?_, rfl, ?_⟩
    · have hb2 : n ≤ (b.data.length : Int) := hb
      have hmax2 : (b.data.length : Int) ≤ maxAlloc := hmax
      have h0 : ¬ (n < 0 ∨ maxAlloc < n) := by omega
      simp [ByteSliceBuffer.Enlarge, makeBytes, h0, ByteSliceBuffer.Bytes]
    · simp [Int.toNat_of_nonneg hn.le]
    · simp only [ByteSliceBuffer.Bytes, List.length_replicate] at hb ⊢
      omega
  · have hle : ¬ n > m.mmf.mapSize := by omega
    have hlen2 : n ≤ m.mmf.mapData.Len := by
      have hl : m.mmf.mapData.Len = L := hlen
      omega
    unfold MmapFileBuffer.Enlarge MmapFile.EnsureFileSize
    simp only [File.Stat, Fallocate, OS.record, MmapFile.File]
    cases hs : k.statErr with
    | some e => exact ⟨_, _, _, _, rfl, rfl, by simp⟩
    | none =>
      by_cases hf : n > (os.files m.mmf.file.name).getD 0
      · cases hfe : k.fallocateErr with
        | some e =>
          simp only [hf, if_true, hfe]
          exact ⟨_, _, _, _, rfl, rfl, by simp [hf]⟩
        | none =>
          simp only [hf, if_true, hfe, hle, if_false]
          exact ⟨_, _, _, _, rfl, rfl, by
            simp [MmapFileBuffer.Bytes, MmapFile.MapData, hlen2]⟩
      · simp only [hf, if_false, hle]
        refine ⟨_, _, _, _, rfl, rfl, ?_⟩
        simp [MmapFileBuffer.Bytes, MmapFile.MapData, hlen2, hf]

/-- C4 as stated fails: a two-byte heap buffer asked for one byte comes back one
byte long, and a four-byte mapped buffer asked for two bytes returns the error of
a failed stat. -/
theorem growth_below_current_size_counterexample :
    ((0 : Int) < 1 ∧ (1 : Int) ≤ (ByteSliceBuffer.mk [7, 7]).Bytes.length ∧
      ∃ next old b2,
        (ByteSliceBuffer.mk [7, 7]).Enlarge maxAllocLinux64 1 = .ok ((next, old, none), b2) ∧
        b2.Bytes.length < (ByteSliceBuffer.mk [7, 7]).Bytes.length) ∧
    ((0 : Int) < 2 ∧ (2 : Int) ≤ fourBytes.Bytes.Len ∧
      ∃ next old m2 os2,
        fourBytes.Enlarge { allSucceed with statErr := some 5 } (oneFile 4) 2
          = .ok ((next, old, some 5), m2, os2)) :=
  ⟨⟨by decide, by decide, _, _, _, rfl, by decide⟩, by decide, by decide, _, _, _, _, rfl⟩

/-- C4, as amended, at a two-byte heap buffer and a four-byte mapping, both asked
for two bytes, once with every call succeeding and once with a failing stat. -/
theorem growth_below_current_size_witness :
    ((∃ next b2, (ByteSliceBuffer.mk [7, 7]).Enlarge maxAllocLinux64 2
        = .ok ((next, (ByteSliceBuffer.mk [7, 7]).Bytes, none), b2) ∧
      (next.length : Int) = 2 ∧ b2.Bytes = next ∧
      b2.Bytes.length ≤ (ByteSliceBuffer.mk [7, 7]).Bytes.length) ∧
    (∃ next m2 os2,
      fourBytes.Enlarge allSucceed (oneFile 4) 2
        = .ok ((next, fourBytes.Bytes, none), m2, os2) ∧
      m2.Bytes = fourBytes.Bytes ∧ next = fourBytes.Bytes)) ∧
    (∃ next m2 os2,
      fourBytes.Enlarge { allSucceed with statErr := some 5 } (oneFile 4) 2
        = .ok ((next, fourBytes.Bytes, some 5), m2, os2) ∧
      m2.Bytes = fourBytes.Bytes ∧ next = Slice.nil) := by
  obtain ⟨hheap, next, err, m2, os2, hrun, hbytes, -, -, hnone, hok, -, -⟩ :=
    growth_below_current_size maxAllocLinux64 ⟨[7, 7]⟩ allSucceed fourBytes (oneFile 4) 2 4
      (by decide) (by decide) (by decide) rfl rfl (by decide)
  obtain ⟨-, next3, err3, m3, os3, hrun3, hbytes3, hstat3, -, -, -, hnil3, -⟩ :=
    growth_below_current_size maxAllocLinux64 ⟨[7, 7]⟩ { allSucceed with statErr := some 5 }
      fourBytes (oneFile 4) 2 4 (by decide) (by decide) (by decide) rfl rfl (by decide)
  have he : err = none := hnone rfl (by decide)
  have he3 : err3 = some 5 := hstat3 5 rfl
  subst he
  subst he3
  exact ⟨⟨hheap, next, m2, os2, hrun, hbytes, (hok rfl).1⟩,
    next3, m3, os3, hrun3, hbytes3, hnil3 (by simp)⟩

/-! Release -/

/-- C7, as amended: `Close` on a mapping with a non-nil span first unmaps it; when
the unmap fails `Close` returns that error and issues no further call, so the file
is not closed; when the unmap succeeds `Close` closes the file and returns the
outcome of that. -/
theorem close_stops_at_failed_unmap (k : Outcomes) (mmf : MmapFile) (os : OS)
    (hnil : mmf.mapData.isNil = false) :
    (∀ e, k.munmapErr = some e →
      (mmf.Close k os).1 = some e ∧
      os.issued (mmf.Close k os).2 = [Syscall.munmap mmf.mapData.Data mmf.mapData.Len]) ∧
    (k.munmapErr = none →
      (mmf.Close k os).1 = k.closeErr ∧
      os.issued (mmf.Close k os).2 =
        [Syscall.munmap mmf.mapData.Data mmf.mapData.Len, Syscall.closeFile mmf.file.name]) := by
  constructor
  · intro e he
    simp [MmapFile.Close, hnil, SyscallMunmap, he, OS.issued, OS.record]
  · intro he
    simp [MmapFile.Close, hnil, SyscallMunmap, he, File.Close, OS.issued, OS.record]

/-- C7 as stated fails: with a failing unmap, `Close` returns the unmap error and
the only call it has issued is the unmap; the file is never closed. -/
theorem close_stops_at_failed_unmap_counterexample :
    fourBytes.mmf.mapData.isNil = false ∧
    (fourBytes.mmf.Close { allSucceed with munmapErr := some 22 } (oneFile 4)).1 = some 22 ∧
    (oneFile 4).issued
        (fourBytes.mmf.Close { allSucceed with munmapErr := some 22 } (oneFile 4)).2
      = [Syscall.munmap 4096 4] ∧
    Syscall.closeFile "f" ∉ (oneFile 4).issued
        (fourBytes.mmf.Close { allSucceed with munmapErr := some 22 } (oneFile 4)).2 :=
  ⟨by decide, by decide, by decide, by decide⟩

/-- C7, as amended, at a four-byte mapping: once with a failing unmap, once with
every call succeeding. -/
theorem close_stops_at_failed_unmap_witness :
    ((fourBytes.mmf.Close { allSucceed with munmapErr := some 22 } (oneFile 4)).1 = some 22 ∧
      (oneFile 4).issued
          (fourBytes.mmf.Close { allSucceed with munmapErr := some 22 } (oneFile 4)).2
        = [Syscall.munmap 4096 4]) ∧
    ((fourBytes.mmf.Close allSucceed (oneFile 4)).1 = none ∧
      (oneFile 4).issued (fourBytes.mmf.Close allSucceed (oneFile 4)).2
        = [Syscall.munmap 4096 4, Syscall.closeFile "f"]) :=
  ⟨(close_stops_at_failed_unmap { allSucceed with munmapErr := some 22 } fourBytes.mmf
      (oneFile 4) (by decide)).1 22 rfl,
    (close_stops_at_failed_unmap allSucceed fourBytes.mmf (oneFile 4) (by decide)).2 rfl⟩

/-! Construction -/

/-- The pre-allocation request of the constructor: opening a file that exists with
length `s`, every call succeeding, issues `fallocate` at offset `s` with length
`allocSize`, so that the file ends up `s + allocSize` bytes long. -/
theorem newMmapFileOpen_request (k : Outcomes) (os : OS) (name : String) (s allocSize : Int)
    (hfile : os.files name = some s) (hk : k.openErr = none ∧ k.statErr = none ∧
      k.fallocateErr = none) (addr : Nat) (hm : k.mmapRes = .ok addr) (ha : 0 ≤ allocSize) :
    (NewMmapFileOpen k os name allocSize).1 =
        some { file := ⟨name⟩, mapData := ⟨addr, allocSize, allocSize⟩, mapSize := allocSize,
               usedMapSize := 0 } ∧
      (NewMmapFileOpen k os name allocSize).2.1 = none ∧
      os.issued (NewMmapFileOpen k os name allocSize).2.2 =
        [Syscall.openFile name, Syscall.stat name, Syscall.fallocate name 0 s allocSize,
          Syscall.mmap name 0 allocSize] ∧
      (NewMmapFileOpen k os name allocSize).2.2.files name = some (s + allocSize) := by
  obtain ⟨h1, h2, h3⟩ := hk
  have hmax : max s (s + allocSize) = s + allocSize := max_eq_right (by omega)
  simp [NewMmapFileOpen, OpenFile, File.Stat, Fallocate, SyscallMmap, OS.record, OS.issued,
    h1, h2, h3, hm, hfile, hmax]

/-- C8 fails on the code: opening an existing file of 4096 bytes with
`allocSize = 8192` asks for 8192 bytes at offset 4096, not for the shortfall of
4096 bytes, and leaves the file 12288 bytes long instead of 8192; `EnsureFileSize`,
growing a four-byte file to eight bytes, does ask for the shortfall of four. -/
theorem newMmapFileOpen_overallocates :
    ((4096 : Int) ≤ 8192) ∧
    (NewMmapFileOpen allSucceed (oneFile 4096) "f" 8192).2.1 = none ∧
    (oneFile 4096).issued (NewMmapFileOpen allSucceed (oneFile 4096) "f" 8192).2.2 =
      [Syscall.openFile "f", Syscall.stat "f", Syscall.fallocate "f" 0 4096 8192,
        Syscall.mmap "f" 0 8192] ∧
    (NewMmapFileOpen allSucceed (oneFile 4096) "f" 8192).2.2.files "f" = some 12288 ∧
    (12288 : Int) ≠ 8192 ∧ (8192 : Int) ≠ 8192 - 4096 ∧
    ∃ r mmf2 os2,
      fourBytes.mmf.EnsureFileSize allSucceed (oneFile 4) 8 = .ok (r, mmf2, os2) ∧
      (oneFile 4).issued os2 =
        [Syscall.stat "f", Syscall.fallocate "f" 0 4 (8 - 4), Syscall.mremap 4096 4 8] :=
  ⟨by decide, by decide, by decide, by decide, by decide, by decide, _, _, _, rfl, by decide⟩

/-! The sequential factory -/

/-- A decimal digit character denotes its digit. -/
theorem digitChar_value (d : Nat) (h : d < 10) : (Nat.digitChar d).toNat - 48 = d := by
  interval_cases d <;> rfl

/-- Reading a digit list that ends in `ch`. -/
theorem decimalValue_append_singleton (l : List Char) (ch : Char) :
    decimalValue (l ++ [ch]) = 10 * decimalValue l + (ch.toNat - 48) := by
  simp [decimalValue, List.foldl_append]

/-- With enough fuel the digit loop puts, in front of the digits it was given, a
digit list denoting `n`. -/
theorem toDigitsCore_value (fuel : Nat) :
    ∀ (n : Nat) (ds : List Char), n < fuel →
      ∃ l, Nat.toDigitsCore 10 fuel n ds = l ++ ds ∧ decimalValue l = n := by
  induction fuel with
  | zero => intro n ds h; omega
  | succ fuel ih =>
    intro n ds h
    by_cases h0 : n / 10 = 0
    · refine ⟨[Nat.digitChar (n % 10)], by simp [Nat.toDigitsCore, h0], ?_⟩
      have hn : n % 10 = n := by omega
      have hd := digitChar_value (n % 10) (Nat.mod_lt _ (by decide))
      simp only [decimalValue, List.foldl_cons, List.foldl_nil, hd]
      omega
    · obtain ⟨l, hl, hv⟩ := ih (n / 10) (Nat.digitChar (n % 10) :: ds) (by omega)
      refine ⟨l ++ [Nat.digitChar (n % 10)], by simp [Nat.toDigitsCore, h0, hl], ?_⟩
      rw [decimalValue_append_singleton, hv,
        digitChar_value (n % 10) (Nat.mod_lt _ (by decide))]
      omega

/-- Reading back the decimal rendering gives the number. -/
theorem decimalValue_formatUint (n : Nat) : decimalValue (FormatUint n).data = n := by
  obtain ⟨l, hl, hv⟩ := toDigitsCore_value (n + 1) n [] (by omega)
  have : (FormatUint n).data = l := by
    simp [FormatUint, Nat.repr, Nat.toDigits, hl, List.asString]
  rw [this, hv]

/-- The decimal rendering is injective. -/
theorem formatUint_injective (a b : Nat) (h : FormatUint a = FormatUint b) : a = b := by
  rw [← decimalValue_formatUint a, ← decimalValue_formatUint b, h]

/-- Two generated file names under one directory are equal only for equal counters. -/
theorem generated_name_injective (path : String) (a b : Nat)
    (h : path ++ FormatUint a = path ++ FormatUint b) : a = b := by
  apply formatUint_injective
  have hd := congrArg String.data h
  simp only [String.data_append] at hd
  exact String.ext (List.append_cancel_left hd)

/-- What one `NewBuffer` call does: it passes exactly the name `path + decimal(seq)`
to the open step, returns the error of `NewMmapFileBufferOpen`, and keeps the
directory; on success it returns a buffer and increments the counter, on failure it
returns no buffer and leaves the factory as it was. -/
theorem newBuffer_step (k : Outcomes) (c : SeqentialMmapFileBufferCreator) (os : OS)
    (n : Int) :
    openedNames (os.issued (c.NewBuffer k os n).2.2) = [c.path ++ FormatUint c.seq] ∧
      (c.NewBuffer k os n).1.2
        = (NewMmapFileBufferOpen k os (c.path ++ FormatUint c.seq) n).2.1 ∧
      (c.NewBuffer k os n).2.1.path = c.path ∧
      ((c.NewBuffer k os n).1.2 = none →
        (c.NewBuffer k os n).1.1 ≠ none ∧
        (c.NewBuffer k os n).2.1.seq = (c.seq + 1) % 2 ^ 64) ∧
      ((c.NewBuffer k os n).1.2 ≠ none →
        (c.NewBuffer k os n).1.1 = none ∧ (c.NewBuffer k os n).2.1 = c) := by
  simp only [SeqentialMmapFileBufferCreator.NewBuffer, NewMmapFileBufferOpen, NewMmapFileOpen,
    OpenFile, File.Stat, Fallocate, SyscallMmap, OS.record, OS.issued, NewMmapFileBuffer]
  cases k.openErr <;> cases k.statErr <;> cases k.fallocateErr <;> cases k.mmapRes <;>
    cases os.files (c.path ++ FormatUint c.seq) <;> simp [openedNames]

/-- A run unfolds one call at a time. -/
theorem runNewBuffer_cons (c : SeqentialMmapFileBufferCreator) (os : OS) (k : Outcomes)
    (n : Int) (rest : List (Outcomes × Int)) :
    runNewBuffer c os ((k, n) :: rest) =
      { seq := c.seq, opened := openedNames (os.issued (c.NewBuffer k os n).2.2),
        buffer := (c.NewBuffer k os n).1.1, err := (c.NewBuffer k os n).1.2,
        seqAfter := (c.NewBuffer k os n).2.1.seq } ::
        runNewBuffer (c.NewBuffer k os n).2.1 (c.NewBuffer k os n).2.2 rest :=
  rfl

/-- The counter after one call, when it cannot wrap. -/
theorem newBuffer_seq (k : Outcomes) (c : SeqentialMmapFileBufferCreator) (os : OS) (n : Int)
    (h : c.seq + 1 < 2 ^ 64) :
    ((c.NewBuffer k os n).1.2 = none → (c.NewBuffer k os n).2.1.seq = c.seq + 1) ∧
      ((c.NewBuffer k os n).1.2 ≠ none → (c.NewBuffer k os n).2.1.seq = c.seq) := by
  obtain ⟨-, -, -, hok, hfail⟩ := newBuffer_step k c os n
  refine ⟨fun he => ?_, fun he => by rw [(hfail he).2]⟩
  rw [(hok he).2, Nat.mod_eq_of_lt h]

/-- Every call of a run that cannot wrap the counter: the counter it found lies
between the initial counter and the initial counter plus the number of calls, it
opened `path + decimal(seq)`, and it advanced the counter by one exactly when it
succeeded. -/
theorem runNewBuffer_calls (calls : List (Outcomes × Int)) :
    ∀ (c : SeqentialMmapFileBufferCreator) (os : OS), c.seq + calls.length < 2 ^ 64 →
      ∀ t ∈ runNewBuffer c os calls,
        c.seq ≤ t.seq ∧ t.seq < c.seq + calls.length ∧
        t.opened = [c.path ++ FormatUint t.seq] ∧
        (t.err = none → t.buffer ≠ none ∧ t.seqAfter = t.seq + 1) ∧
        (t.err ≠ none → t.buffer = none ∧ t.seqAfter = t.seq) := by
  induction calls with
  | nil => intro c os _ t ht; simp [runNewBuffer] at ht
  | cons x rest ih =>
    obtain ⟨k, n⟩ := x
    intro c os hb t ht
    simp only [List.length_cons] at hb
    obtain ⟨hname, -, hpath, hok, hfail⟩ := newBuffer_step k c os n
    obtain ⟨hs1, hs2⟩ := newBuffer_seq k c os n (by omega)
    rw [runNewBuffer_cons, List.mem_cons] at ht
    rcases ht with rfl | ht
    · refine ⟨le_refl _, by simp, hname, fun he => ⟨(hok he).1, hs1 he⟩,
        fun he => ⟨(hfail he).1, hs2 he⟩⟩
    · have hle : (c.NewBuffer k os n).2.1.seq ≤ c.seq + 1 := by
        by_cases he : (c.NewBuffer k os n).1.2 = none
        · rw [hs1 he]
        · rw [hs2 he]; omega
      have hge : c.seq ≤ (c.NewBuffer k os n).2.1.seq := by
        by_cases he : (c.NewBuffer k os n).1.2 = none
        · rw [hs1 he]; omega
        · rw [hs2 he]
      obtain ⟨h1, h2, h3, h4⟩ := ih _ _ (by omega) t ht
      refine ⟨by omega, by simp only [List.length_cons]; omega, ?_, h4⟩
      rw [h3, hpath]

/-- In a run that cannot wrap the counter, every call finds the counter at least as
large as any earlier call left it. -/
theorem runNewBuffer_pairwise (calls : List (Outcomes × Int)) :
    ∀ (c : SeqentialMmapFileBufferCreator) (os : OS), c.seq + calls.length < 2 ^ 64 →
      (runNewBuffer c os calls).Pairwise (fun a b => a.seqAfter ≤ b.seq) := by
  induction calls with
  | nil => intro c os _; simp [runNewBuffer]
  | cons x rest ih =>
    obtain ⟨k, n⟩ := x
    intro c os hb
    simp only [List.length_cons] at hb
    obtain ⟨hs1, hs2⟩ := newBuffer_seq k c os n (by omega)
    have hle : (c.NewBuffer k os n).2.1.seq ≤ c.seq + 1 := by
      by_cases he : (c.NewBuffer k os n).1.2 = none
      · rw [hs1 he]
      · rw [hs2 he]; omega
    rw [runNewBuffer_cons, List.pairwise_cons]
    refine ⟨fun b hb2 => ?_, ih _ _ (by omega)⟩
    exact (runNewBuffer_calls rest _ _ (by omega) b hb2).1

/-- In a run, every call but the first finds the counter as the call before it left
it. -/
theorem runNewBuffer_chain (calls : List (Outcomes × Int)) :
    ∀ (c : SeqentialMmapFileBufferCreator) (os : OS),
      (∀ t, (runNewBuffer c os calls).head? = some t → t.seq = c.seq) ∧
      (runNewBuffer c os calls).Chain' (fun a b => b.seq = a.seqAfter) := by
  induction calls with
  | nil => intro c os; simp [runNewBuffer]
  | cons x rest ih =>
    obtain ⟨k, n⟩ := x
    intro c os
    rw [runNewBuffer_cons]
    refine ⟨fun t ht => ?_, ?_⟩
    · simp only [List.head?_cons, Option.some.injEq] at ht
      rw [← ht]
    · rw [List.chain'_cons']
      exact ⟨fun b hb => (ih _ _).1 b hb, (ih _ _).2⟩

/-- C6: on one factory, in a run of `NewBuffer` calls with arbitrary outcomes that
does not wrap the counter, every call opens `path + decimal(seq)` and returns the
error of the underlying open; a successful call returns a buffer and leaves the
counter at `seq + 1`; a failed call returns no buffer and leaves the counter
unchanged; of any two successful calls the later one saw a larger sequence number
and opened a different file name. -/
theorem successful_creations_are_unique (c : SeqentialMmapFileBufferCreator) (os : OS)
    (calls : List (Outcomes × Int)) (hwrap : c.seq + calls.length < 2 ^ 64) :
    (∀ (k : Outcomes) (c1 : SeqentialMmapFileBufferCreator) (os1 : OS) (n : Int),
      (c1.NewBuffer k os1 n).1.2
        = (NewMmapFileBufferOpen k os1 (c1.path ++ FormatUint c1.seq) n).2.1) ∧
    (∀ t ∈ runNewBuffer c os calls,
      t.opened = [c.path ++ FormatUint t.seq] ∧
      (t.err = none → t.buffer ≠ none ∧ t.seqAfter = t.seq + 1) ∧
      (t.err ≠ none → t.buffer = none ∧ t.seqAfter = t.seq)) ∧
    ((runNewBuffer c os calls).filter (fun t => t.err = none)).Pairwise
      (fun a b => a.seq < b.seq ∧ a.opened ≠ b.opened) := by
  refine ⟨fun k c1 os1 n => (newBuffer_step k c1 os1 n).2.1,
    fun t ht => (runNewBuffer_calls calls c os hwrap t ht).2.2, ?_⟩
  have hall := runNewBuffer_calls calls c os hwrap
  have hp := (runNewBuffer_pairwise calls c os hwrap).filter (fun t => t.err = none)
  refine hp.imp_of_mem ?_
  intro a b ha hb hab
  obtain ⟨ha1, ha2⟩ := List.mem_filter.mp ha
  obtain ⟨hb1, -⟩ := List.mem_filter.mp hb
  have hae : a.err = none := of_decide_eq_true ha2
  obtain ⟨-, -, hna, hoka, -⟩ := hall a ha1
  obtain ⟨-, -, hnb, -, -⟩ := hall b hb1
  have hlt : a.seq < b.seq := by
    have := (hoka hae).2
    omega
  refine ⟨hlt, fun heq => ?_⟩
  rw [hna, hnb] at heq
  have := generated_name_injective c.path a.seq b.seq (List.singleton_inj.mp heq)
  omega

/-- C6 on a run of three calls in `/tmp/` whose first call fails at the
pre-allocation: the two successful calls saw the numbers 1 and 2 and opened
`/tmp/1` and `/tmp/2`. -/
theorem successful_creations_are_unique_witness :
    (runNewBuffer ⟨"/tmp/", 1⟩ (oneFile 4)
        [({ allSucceed with fallocateErr := some 28 }, 16), (allSucceed, 16), (allSucceed, 32)]).map
      (fun t => (t.seq, t.opened, t.err, t.seqAfter))
      = [(1, ["/tmp/1"], some 28, 1), (1, ["/tmp/1"], none, 2), (2, ["/tmp/2"], none, 3)] ∧
    ((runNewBuffer ⟨"/tmp/", 1⟩ (oneFile 4)
        [({ allSucceed with fallocateErr := some 28 }, 16), (allSucceed, 16),
          (allSucceed, 32)]).filter (fun t => t.err = none)).Pairwise
      (fun a b => a.seq < b.seq ∧ a.opened ≠ b.opened) :=
  ⟨by decide,
    (successful_creations_are_unique ⟨"/tmp/", 1⟩ (oneFile 4)
      [({ allSucceed with fallocateErr := some 28 }, 16), (allSucceed, 16), (allSucceed, 32)]
      (by decide)).2.2⟩

/-- C9, as amended: in a run of `NewBuffer` calls on one factory that does not wrap
the counter, the file name opened by a successful call is opened by no later call,
and the call that follows a failed call opens the failed call's file name again. -/
theorem filename_reused_only_after_failure (c : SeqentialMmapFileBufferCreator) (os : OS)
    (calls : List (Outcomes × Int)) (hwrap : c.seq + calls.length < 2 ^ 64) :
    (runNewBuffer c os calls).Pairwise (fun a b => a.err = none → a.opened ≠ b.opened) ∧
    (∀ pre a b post, runNewBuffer c os calls = pre ++ a :: b :: post →
      a.err ≠ none → b.opened = a.opened) := by
  have hall := runNewBuffer_calls calls c os hwrap
  constructor
  · refine (runNewBuffer_pairwise calls c os hwrap).imp_of_mem ?_
    intro a b ha hb hab hae heq
    obtain ⟨-, -, hna, hoka, -⟩ := hall a ha
    obtain ⟨-, -, hnb, -, -⟩ := hall b hb
    rw [hna, hnb] at heq
    have h1 := generated_name_injective c.path a.seq b.seq (List.singleton_inj.mp heq)
    have h2 := (hoka hae).2
    omega
  · intro pre a b post hrun hae
    have hch := (runNewBuffer_chain calls c os).2
    rw [hrun] at hch
    have hab : b.seq = a.seqAfter := (List.chain'_cons.mp (List.Chain'.right_of_append hch)).1
    have ha : a ∈ runNewBuffer c os calls := by rw [hrun]; simp
    have hb : b ∈ runNewBuffer c os calls := by rw [hrun]; simp
    obtain ⟨-, -, hna, -, hfa⟩ := hall a ha
    obtain ⟨-, -, hnb, -, -⟩ := hall b hb
    rw [hna, hnb, hab, (hfa hae).2]

/-- C9 as stated fails: when the first call on a factory fails, the second call
opens the same file name `/tmp/1` again. -/
theorem filename_reused_only_after_failure_counterexample :
    (runNewBuffer ⟨"/tmp/", 1⟩ (oneFile 4)
        [({ allSucceed with fallocateErr := some 28 }, 16), (allSucceed, 16)]).map
      (fun t => (t.opened, t.err))
      = [(["/tmp/1"], some 28), (["/tmp/1"], none)] := by
  decide

/-- C9, as amended, on a run of three calls whose first call fails. -/
theorem filename_reused_only_after_failure_witness :
    (runNewBuffer ⟨"/tmp/", 1⟩ (oneFile 4)
        [({ allSucceed with fallocateErr := some 28 }, 16), (allSucceed, 16),
          (allSucceed, 32)]).Pairwise (fun a b => a.err = none → a.opened ≠ b.opened) ∧
    (∀ pre a b post,
      runNewBuffer ⟨"/tmp/", 1⟩ (oneFile 4)
        [({ allSucceed with fallocateErr := some 28 }, 16), (allSucceed, 16), (allSucceed, 32)]
        = pre ++ a :: b :: post →
      a.err ≠ none → b.opened = a.opened) :=
  filename_reused_only_after_failure ⟨"/tmp/", 1⟩ (oneFile 4)
    [({ allSucceed with fallocateErr := some 28 }, 16), (allSucceed, 16), (allSucceed, 32)]
    (by decide)

/-! Factory construction -/

/-- For a non-empty directory path the factory is built with the counter at 1 and a
path that ends in the separator: the given path when it already ends in `/`, the
path followed by `/` otherwise; building a factory from the stored path stores the
same path again. -/
theorem newCreator_normalises (p : String) (hp : p ≠ "") :
    ∃ c, NewSeqentialMmapFileBufferCreator p = .ok c ∧ c.seq = 1 ∧
      c.path.data.getLast? = some '/' ∧
      c.path = (if p.data.getLast? = some '/' then p else p ++ "/") ∧
      NewSeqentialMmapFileBufferCreator c.path = .ok c := by
  have hne : p.data ≠ [] := fun h => hp (String.ext (by simpa using h))
  obtain ⟨last, hlast⟩ : ∃ last, p.data.getLast? = some last := by
    cases h : p.data.getLast? with
    | none => exact absurd (List.getLast?_eq_none_iff.mp h) hne
    | some x => exact ⟨x, rfl⟩
  by_cases hsep : last = '/'
  · subst hsep
    refine ⟨⟨p, 1⟩, ?_, rfl, hlast, by simp [hlast], ?_⟩ <;>
      simp [NewSeqentialMmapFileBufferCreator, hlast]
  · have hl2 : (p ++ "/").data.getLast? = some '/' := by
      simp [String.data_append]
    refine ⟨⟨p ++ "/", 1⟩, ?_, rfl, hl2, by simp [hlast, hsep], ?_⟩
    · simp [NewSeqentialMmapFileBufferCreator, hlast, hsep]
    · simp [NewSeqentialMmapFileBufferCreator, hl2]

/-- C10 fails on the code at the empty path: `path[len(path)-1]` is out of range and
the constructor panics instead of returning a factory; on the test's kind of path,
a directory given without a trailing separator, it stores the path followed by `/`
and the first file is `p/1`. -/
theorem newCreator_empty_path_panics :
    NewSeqentialMmapFileBufferCreator "" = .error .indexOutOfRange ∧
    NewSeqentialMmapFileBufferCreator "/tmp/iox" = .ok ⟨"/tmp/iox/", 1⟩ ∧
    (runNewBuffer ⟨"/tmp/iox/", 1⟩ (oneFile 4) [(allSucceed, 1048576)]).map Call.opened
      = [["/tmp/iox/1"]] :=
  ⟨rfl, rfl, by decide⟩

end BigCache
